import Mathlib

/-!
# Verification of the lock-free stock-trading engine (`simple.py`)

Shallow embedding of the core of `simple.py`: the FNV-1a symbol registry
(`hash_ticker`, `get_or_create_books`), price-ordered book insertion
(`addOrder`) and the head-crossing matching loop (`matchOrder`).

The embedding gives the *sequential* semantics of the code: operations run
without interference, so every `compare_and_set` whose expected value was
just read succeeds and the retry loop of `addOrder` finishes on its first
attempt (the fallback path never fires).  Mutable heap objects are modelled
functionally: a book is the list of orders reachable from its head, an
order's `quantity.value` is the `qty` field, and object identity is the
`oid` field (the unique `order_id`).  Prices are integers (order comparisons
are all the code performs on them).
-/

set_option linter.unusedVariables false

/-- `NUM_TICKERS = 1024` from `simple.py`. -/
def NUM_TICKERS : Nat := 1024

/-- `MAX_RETRIES = 50` from `simple.py`. -/
def MAX_RETRIES : Nat := 50

/-- `MAX_MATCHING_ITERATIONS = 5000` from `simple.py`. -/
def MAX_MATCHING_ITERATIONS : Nat := 5000

/-- An `Order` object: `oid` models the unique `order_id`, `qty` models the
`quantity.value` cell, the other fields are the constructor arguments. -/
structure Order where
  oid : Nat
  order_type : String
  ticker : String
  qty : Int
  price : Int
deriving DecidableEq, Repr

/-- One match as logged by `matchOrder` (line `MATCH: ...`): matched
quantity, the sell head's price, and the two order ids. -/
structure MatchEvent where
  matched : Int
  price : Int
  buyOid : Nat
  sellOid : Nat
deriving DecidableEq, Repr

/-- A `TickerNode`: symbol plus its two books, each book being the list of
orders reachable from the corresponding head reference. -/
structure TickerNode where
  ticker_symbol : String
  buy_book : List Order
  sell_book : List Order
deriving DecidableEq, Repr

/-- The `tickers` array: one bucket per index, each bucket the chain of
`TickerNode`s (the empty chain models a `None` slot). -/
abbrev Registry := List (List TickerNode)

/-- The initial registry `[None] * NUM_TICKERS`. -/
def initRegistry : Registry := List.replicate NUM_TICKERS []

/-- `hash_ticker`: FNV-1a over the characters, 32-bit masked, reduced
modulo `NUM_TICKERS`. -/
def hash_ticker (ticker_symbol : String) : Nat :=
  (ticker_symbol.data.foldl
    (fun h c => ((h ^^^ c.toNat) * 16777619) % 4294967296) 2166136261) % NUM_TICKERS

/-- Spec-side definition ("FNV-1a hash over the string's characters,
32-bit masked"), for comparison with `hash_ticker`. -/
def fnv1a32 (s : String) : Nat :=
  s.data.foldl (fun h c => ((h ^^^ c.toNat) * 16777619) % 2 ^ 32) 2166136261

/-- The node stored at bucket `i`, chain position `j`. -/
def nodeAt (ts : Registry) (i j : Nat) : Option TickerNode :=
  (ts.getD i [])[j]?

/-- Replace the element at position `j` (used to model in-place mutation of
one node of a bucket chain). -/
def listModify (f : α → α) : Nat → List α → List α
  | _, [] => []
  | 0, x :: xs => f x :: xs
  | n + 1, x :: xs => x :: listModify f n xs

/-- Mutate the node at bucket `i`, chain position `j`. -/
def updateNode (ts : Registry) (i j : Nat) (f : TickerNode → TickerNode) : Registry :=
  ts.set i (listModify f j (ts.getD i []))

/-- `get_or_create_books`: hash the symbol, walk the bucket's chain for an
equal symbol, and otherwise append a fresh node at the chain's end (an
empty bucket receives the fresh node directly).  Returns the updated
registry together with the node's location `(bucket, chain position)` —
the location identifies the `(buy_book, sell_book)` pair the Python
function returns by reference. -/
def get_or_create_books (ts : Registry) (ticker_symbol : String) :
    Registry × Nat × Nat :=
  let index := hash_ticker ticker_symbol
  let bucket := ts.getD index []
  match bucket.findIdx? (fun nd => nd.ticker_symbol == ticker_symbol) with
  | some j => (ts, index, j)
  | none => (ts.set index (bucket ++ [⟨ticker_symbol, [], []⟩]), index, bucket.length)

/-- The side-dependent strict price comparison of `addOrder`:
`(is_buy and price > other) or (not is_buy and price < other)`. -/
def priceBeats (is_buy : Bool) (price other : Int) : Bool :=
  if is_buy then other < price else price < other

/-- Sequential effect of `addOrder`'s insertion loop on one book: the new
order is installed at the head if it strictly beats the head's price
(Case 1), otherwise before the first later node it strictly beats
(Case 2), otherwise at the end (Case 3); with no interference the first
CAS taken succeeds. -/
def bookInsert (is_buy : Bool) (o : Order) : List Order → List Order
  | [] => [o]
  | x :: xs =>
    if priceBeats is_buy o.price x.price then o :: x :: xs
    else x :: bookInsert is_buy o xs

/-- `addOrder`: validation (quantity, then price), book resolution via
`get_or_create_books`, then insertion into the side selected by
`order_type == "Buy"`.  `oid` stands for the generated unique `order_id`. -/
def addOrder (ts : Registry) (order_type ticker_symbol : String)
    (quantity price : Int) (oid : Nat) : Option Order × Registry :=
  if quantity ≤ 0 then (none, ts)
  else if price ≤ 0 then (none, ts)
  else
    let r := get_or_create_books ts ticker_symbol
    let new_order : Order := ⟨oid, order_type, ticker_symbol, quantity, price⟩
    let is_buy := order_type == "Buy"
    (some new_order,
      updateNode r.1 r.2.1 r.2.2 (fun nd =>
        if is_buy then { nd with buy_book := bookInsert is_buy new_order nd.buy_book }
        else { nd with sell_book := bookInsert is_buy new_order nd.sell_book }))

/-- A sequence of successful insertions into one book (each element of
`os` a validated order, in submission order). -/
def runBook (is_buy : Bool) (book : List Order) : List Order → List Order
  | [] => book
  | o :: os => runBook is_buy (bookInsert is_buy o book) os

/-- The book order maintained by insertion: strictly better price first
(descending for bids, ascending for asks), ties broken by submission
order (`oid` models arrival: earlier submissions have smaller ids). -/
def inOrder (is_buy : Bool) (x y : Order) : Prop :=
  priceBeats is_buy x.price y.price = true ∨ (x.price = y.price ∧ x.oid < y.oid)

/-- Registry well-formedness: the `tickers` array has its fixed capacity,
every node sits in the bucket its symbol hashes to, and no bucket chain
mentions a symbol twice (together these give at most one entry per
distinct symbol anywhere in the registry). -/
def RegistryWF (ts : Registry) : Prop :=
  ts.length = NUM_TICKERS ∧
    ∀ i : Nat, (∀ nd ∈ ts.getD i [], hash_ticker nd.ticker_symbol = i) ∧
      ((ts.getD i []).map (·.ticker_symbol)).Nodup

/-- Sequential semantics of `matchOrder`'s inner `while` loop for one
symbol.  Returns the final buy book, sell book, list of emitted match
events (the `matches_count` contribution is their length) and the final
value of the `iterations` counter.  A zero-quantity head is unlinked and
the loop `continue`s without touching `iterations`; a match decrements
both heads by `min` of the two quantities, unlinks the sides that reach
zero, and increments `iterations`. -/
def matchLoop (buy sell : List Order) (iterations : Nat) :
    List Order × List Order × List MatchEvent × Nat :=
  if h : iterations < MAX_MATCHING_ITERATIONS then
    match buy, sell with
    | [], _ => (buy, sell, [], iterations)
    | _, [] => (buy, sell, [], iterations)
    | b :: bs, s :: ss =>
      if b.price < s.price then (b :: bs, s :: ss, [], iterations)
      else if b.qty ≤ 0 then matchLoop bs (s :: ss) iterations
      else if s.qty ≤ 0 then matchLoop (b :: bs) ss iterations
      else
        let matched_quantity := min b.qty s.qty
        let b' : Order := { b with qty := b.qty - matched_quantity }
        let s' : Order := { s with qty := s.qty - matched_quantity }
        let rest := matchLoop (if b'.qty ≤ 0 then bs else b' :: bs)
                              (if s'.qty ≤ 0 then ss else s' :: ss)
                              (iterations + 1)
        (rest.1, rest.2.1,
          ⟨matched_quantity, s.price, b.oid, s.oid⟩ :: rest.2.2.1, rest.2.2.2)
  else (buy, sell, [], iterations)
termination_by buy.length + sell.length + (MAX_MATCHING_ITERATIONS - iterations)
decreasing_by
  · simp only [List.length_cons]; omega
  · simp only [List.length_cons]; omega
  · simp only [List.length_cons]
    split <;> split <;> first
      | omega
      | (simp only [List.length_cons]; omega)

/-- One ticker's pass inside `matchOrder`: run the loop from
`iterations = 0`, write the resulting books back, report the events and
whether the iteration ceiling was hit (the logged warning). -/
def matchTickerNode (nd : TickerNode) : TickerNode × List MatchEvent × Bool :=
  let r := matchLoop nd.buy_book nd.sell_book 0
  ({ nd with buy_book := r.1, sell_book := r.2.1 }, r.2.2.1,
    decide (MAX_MATCHING_ITERATIONS ≤ r.2.2.2))

/-- `matchOrder`'s traversal of one bucket's chain. -/
def matchBucket : List TickerNode → List TickerNode × Nat
  | [] => ([], 0)
  | nd :: rest =>
    let r := matchTickerNode nd
    let r' := matchBucket rest
    (r.1 :: r'.1, r.2.1.length + r'.2)

/-- `matchOrder`: visit every bucket of the registry in order, drain each
ticker, and return the total `matches_count`. -/
def matchOrder : Registry → Registry × Nat
  | [] => ([], 0)
  | bucket :: rest =>
    let r := matchBucket bucket
    let r' := matchOrder rest
    (r.1 :: r'.1, r.2 + r'.2)

/-- Total quantity matched against the buy order `oid` in a list of
events. -/
def consumedBuy (oid : Nat) (evs : List MatchEvent) : Int :=
  (evs.filter (fun e => e.buyOid == oid)).foldr (fun e acc => e.matched + acc) 0

/-- Total quantity matched against the sell order `oid` in a list of
events. -/
def consumedSell (oid : Nat) (evs : List MatchEvent) : Int :=
  (evs.filter (fun e => e.sellOid == oid)).foldr (fun e acc => e.matched + acc) 0

/-- The bounded-retry skeleton of `addOrder`'s main loop: attempt `k`
succeeds when `succ k`; the loop stops at `MAX_RETRIES`.  Returns the
index of the successful attempt, if any. -/
def retryLoop (succ : Nat → Bool) (retries : Nat) : Option Nat :=
  if h : retries < MAX_RETRIES then
    if succ retries then some retries else retryLoop succ (retries + 1)
  else none
termination_by MAX_RETRIES - retries

/-- The forced-insertion fallback: at most 5 further attempts. -/
def fallbackLoop (fsucc : Nat → Bool) (t : Nat) : Option Nat :=
  if h : t < 5 then
    if fsucc t then some t else fallbackLoop fsucc (t + 1)
  else none
termination_by 5 - t

/-- Control skeleton of `addOrder` after validation: the bounded retry
loop, then the bounded fallback, then an explicit failure (`return None`).
Returns whether the order was installed and how many attempts ran. -/
def addOrderControl (succ fsucc : Nat → Bool) : Bool × Nat :=
  match retryLoop succ 0 with
  | some k => (true, k + 1)
  | none =>
    match fallbackLoop fsucc 0 with
    | some t => (true, MAX_RETRIES + (t + 1))
    | none => (false, MAX_RETRIES + 5)

/-- The mutex-guarded `AtomicReference` cell. -/
structure AtomicReference (α : Type) where
  value : α

/-- `AtomicReference.get`. -/
def AtomicReference.get (r : AtomicReference α) : α := r.value

/-- `compare_and_set`: publish `new_value` and report success iff the cell
still holds `expected`; otherwise leave the cell unchanged and report
failure.  The comparison the Python `==` performs on `Order` objects (no
`__eq__` override) and on `None` is reference identity, which the
embedding renders as equality of the stored reference value. -/
def AtomicReference.compare_and_set [DecidableEq α]
    (r : AtomicReference α) (expected new_value : α) : AtomicReference α × Bool :=
  if r.value = expected then (⟨new_value⟩, true) else (r, false)

/-- A heap reference to an `Order` object: `addr` is the object's
identity, distinct for distinct objects regardless of field contents. -/
structure ObjRef where
  addr : Nat
deriving DecidableEq, Repr

/-! ## Unfolding equations for the matching loop -/

lemma matchLoop_nil_left (sell : List Order) (it : Nat) :
    matchLoop [] sell it = ([], sell, [], it) := by
  rw [matchLoop.eq_def]
  split
  · split
    any_goals rfl
    rename_i heq
    simp at heq
  · rfl

lemma matchLoop_nil_right (buy : List Order) (it : Nat) :
    matchLoop buy [] it = (buy, [], [], it) := by
  rw [matchLoop.eq_def]
  split
  · split
    any_goals rfl
    rename_i heq
    simp at heq
  · rfl

lemma matchLoop_stop (buy sell : List Order) (it : Nat)
    (h : ¬ it < MAX_MATCHING_ITERATIONS) :
    matchLoop buy sell it = (buy, sell, [], it) := by
  rw [matchLoop.eq_def, dif_neg h]

lemma matchLoop_cons (b s : Order) (bs ss : List Order) (it : Nat)
    (hit : it < MAX_MATCHING_ITERATIONS) :
    matchLoop (b :: bs) (s :: ss) it =
      if b.price < s.price then (b :: bs, s :: ss, [], it)
      else if b.qty ≤ 0 then matchLoop bs (s :: ss) it
      else if s.qty ≤ 0 then matchLoop (b :: bs) ss it
      else
        let matched_quantity := min b.qty s.qty
        let b' : Order := { b with qty := b.qty - matched_quantity }
        let s' : Order := { s with qty := s.qty - matched_quantity }
        let rest := matchLoop (if b'.qty ≤ 0 then bs else b' :: bs)
                              (if s'.qty ≤ 0 then ss else s' :: ss)
                              (it + 1)
        (rest.1, rest.2.1,
          ⟨matched_quantity, s.price, b.oid, s.oid⟩ :: rest.2.2.1, rest.2.2.2) := by
  rw [matchLoop.eq_def, dif_pos hit]

/-! ## Helper lemmas for loop bounds -/

lemma retryLoop_some_lt (succ : Nat → Bool) (r k : Nat)
    (h : retryLoop succ r = some k) : k < MAX_RETRIES := by
  induction r using retryLoop.induct succ with
  | case1 r hr hs =>
    rw [retryLoop, dif_pos hr, if_pos hs] at h
    exact (Option.some_inj.mp h) ▸ hr
  | case2 r hr hs ih =>
    rw [retryLoop, dif_pos hr, if_neg hs] at h
    exact ih h
  | case3 r hr =>
    rw [retryLoop, dif_neg hr] at h
    exact absurd h (by simp)

lemma fallbackLoop_some_lt (fsucc : Nat → Bool) (t k : Nat)
    (h : fallbackLoop fsucc t = some k) : k < 5 := by
  induction t using fallbackLoop.induct fsucc with
  | case1 t ht hs =>
    rw [fallbackLoop, dif_pos ht, if_pos hs] at h
    exact (Option.some_inj.mp h) ▸ ht
  | case2 t ht hs ih =>
    rw [fallbackLoop, dif_pos ht, if_neg hs] at h
    exact ih h
  | case3 t ht =>
    rw [fallbackLoop, dif_neg ht] at h
    exact absurd h (by simp)

lemma matchLoop_iterations_le (buy sell : List Order) (iterations : Nat) :
    iterations ≤ MAX_MATCHING_ITERATIONS →
      (matchLoop buy sell iterations).2.2.2 ≤ MAX_MATCHING_ITERATIONS := by
  induction buy, sell, iterations using matchLoop.induct with
  | case1 sell it hit =>
    intro h; rw [matchLoop_nil_left]; exact h
  | case2 buy it hit hne =>
    intro h; rw [matchLoop_nil_right]; exact h
  | case3 it hit b bs s ss hlt =>
    intro h; rw [matchLoop_cons _ _ _ _ _ hit, if_pos hlt]; exact h
  | case4 it hit b bs s ss hlt hq ih =>
    intro h
    rw [matchLoop_cons _ _ _ _ _ hit, if_neg hlt, if_pos hq]
    exact ih h
  | case5 it hit b bs s ss hlt hbq hsq ih =>
    intro h
    rw [matchLoop_cons _ _ _ _ _ hit, if_neg hlt, if_neg hbq, if_pos hsq]
    exact ih h
  | case6 it hit b bs s ss hlt hbq hsq mq b' s' ih =>
    intro h
    rw [matchLoop_cons _ _ _ _ _ hit, if_neg hlt, if_neg hbq, if_neg hsq]
    exact ih (by omega)
  | case7 buy sell it hit =>
    intro h; rw [matchLoop_stop _ _ _ hit]; exact h

/-! ## Claim theorems -/

/-- C9: the registry capacity is the documented constant 1024, and for
every ticker string `hash_ticker` is the 32-bit-masked FNV-1a hash of the
string's characters reduced modulo the capacity, hence always a bucket
index in `[0, 1024)`; `hash_ticker` being a pure function of the string,
the same string always maps to the same index. -/
theorem hash_ticker_fnv1a_bounded :
    NUM_TICKERS = 1024 ∧
      ∀ s : String, hash_ticker s = fnv1a32 s % NUM_TICKERS ∧
        hash_ticker s < NUM_TICKERS := by
  refine ⟨rfl, fun s => ⟨rfl, Nat.mod_lt _ (by decide)⟩⟩

/-- C4: `addOrder` with a non-positive quantity or a non-positive price
returns `None` synchronously and leaves the whole registry — every book,
every node, every order — untouched; no order is inserted anywhere and
nothing is retried. -/
theorem addOrder_rejects_invalid (ts : Registry) (order_type ticker_symbol : String)
    (quantity price : Int) (oid : Nat) (h : quantity ≤ 0 ∨ price ≤ 0) :
    addOrder ts order_type ticker_symbol quantity price oid = (none, ts) := by
  unfold addOrder
  rcases h with h | h
  · rw [if_pos h]
  · rcases le_or_lt quantity 0 with hq | hq
    · rw [if_pos hq]
    · rw [if_neg (not_le.mpr hq), if_pos h]

/-- Witness for C4: a zero-quantity order and a negative-price order are
both rejected with the registry unchanged. -/
theorem addOrder_rejects_invalid_witness :
    ((0 : Int) ≤ 0 ∨ (150 : Int) ≤ 0) ∧
      addOrder initRegistry "Buy" "AAPL" 0 150 1 = (none, initRegistry) :=
  ⟨Or.inl (by decide), addOrder_rejects_invalid _ _ _ _ _ _ (Or.inl (by decide))⟩

/-- C7: `compare_and_set` publishes the new value and returns `true` iff
the slot holds a value identical to `expected`, and otherwise leaves the
slot unchanged and returns `false`; the comparison is identity of the
stored reference (`ObjRef` address or `None`), so two distinct order
objects never compare equal whatever their field contents. -/
theorem compare_and_set_spec (r : AtomicReference (Option ObjRef))
    (expected new_value : Option ObjRef) :
    ((r.compare_and_set expected new_value).2 = true ↔ r.value = expected) ∧
      ((r.compare_and_set expected new_value).1.value =
        if r.value = expected then new_value else r.value) ∧
      (∀ a1 a2 : ObjRef, a1 ≠ a2 →
        (AtomicReference.mk (some a1)).compare_and_set (some a2) new_value =
          (⟨some a1⟩, false)) := by
  refine ⟨?_, ?_, ?_⟩
  · rcases eq_or_ne r.value expected with h | h <;>
      simp [AtomicReference.compare_and_set, h]
  · rcases eq_or_ne r.value expected with h | h <;>
      simp [AtomicReference.compare_and_set, h]
  · intro a1 a2 hne
    simp [AtomicReference.compare_and_set, hne]

/-- Witness for C7: a slot holding a reference to one order object is not
updated by a CAS expecting a reference to a different object. -/
theorem compare_and_set_spec_witness :
    ObjRef.mk 0 ≠ ObjRef.mk 1 ∧
      (AtomicReference.mk (some (ObjRef.mk 0))).compare_and_set
        (some (ObjRef.mk 1)) none = (⟨some (ObjRef.mk 0)⟩, false) :=
  ⟨by decide,
    (compare_and_set_spec ⟨some ⟨0⟩⟩ (some ⟨1⟩) none).2.2 ⟨0⟩ ⟨1⟩ (by decide)⟩

/-- C8: on a symbol with no crossable pair — a book empty, or the best bid
strictly below the best ask — the matching pass emits no event, counts no
match, and leaves both books (and hence every order and link) unchanged;
likewise the whole per-ticker pass of `matchOrder` returns the node
unchanged with zero events. -/
theorem matchLoop_no_cross (buy sell : List Order)
    (h : buy = [] ∨ sell = [] ∨
      ∃ b bs s ss, buy = b :: bs ∧ sell = s :: ss ∧ b.price < s.price) :
    (∀ iterations, matchLoop buy sell iterations = (buy, sell, [], iterations)) ∧
      ∀ nd : TickerNode, nd.buy_book = buy → nd.sell_book = sell →
        matchTickerNode nd = (nd, [], false) := by
  have main : ∀ iterations, matchLoop buy sell iterations = (buy, sell, [], iterations) := by
    intro it
    rcases h with h | h | ⟨b, bs, s, ss, hb, hs, hlt⟩
    · rw [h, matchLoop_nil_left]
    · rw [h, matchLoop_nil_right]
    · subst hb; subst hs
      rcases lt_or_ge it MAX_MATCHING_ITERATIONS with hit | hit
      · rw [matchLoop_cons _ _ _ _ _ hit, if_pos hlt]
      · rw [matchLoop_stop _ _ _ (not_lt.mpr hit)]
  refine ⟨main, fun nd hb hs => ?_⟩
  obtain ⟨sym, bb, sb⟩ := nd
  simp only at hb hs
  subst hb; subst hs
  simp [matchTickerNode, main 0]
  decide

/-- Witness for C8: a bid strictly below the ask matches nothing and
mutates nothing. -/
theorem matchLoop_no_cross_witness :
    matchLoop [⟨1, "Buy", "TEST", 50, 148⟩] [⟨2, "Sell", "TEST", 50, 149⟩] 0 =
      ([⟨1, "Buy", "TEST", 50, 148⟩], [⟨2, "Sell", "TEST", 50, 149⟩], [], 0) :=
  (matchLoop_no_cross _ _
    (Or.inr (Or.inr ⟨_, _, _, _, rfl, rfl, by decide⟩))).1 0

/-- C6: every matching pass and every insertion terminates with an
explicit outcome within its documented budget: the per-symbol matching
loop never drives the `iterations` counter beyond
`MAX_MATCHING_ITERATIONS` (exceeding the ceiling merely ends the pass for
that symbol), and the `addOrder` control skeleton performs at most
`MAX_RETRIES` retry attempts plus 5 fallback attempts, reporting failure
explicitly exactly when both budgets are exhausted without a successful
CAS. -/
theorem matching_and_insertion_bounded (buy sell : List Order) (iterations : Nat)
    (h : iterations ≤ MAX_MATCHING_ITERATIONS) (succ fsucc : Nat → Bool) :
    (matchLoop buy sell iterations).2.2.2 ≤ MAX_MATCHING_ITERATIONS ∧
      (addOrderControl succ fsucc).2 ≤ MAX_RETRIES + 5 ∧
      ((addOrderControl succ fsucc).1 = false ↔
        retryLoop succ 0 = none ∧ fallbackLoop fsucc 0 = none) := by
  refine ⟨matchLoop_iterations_le buy sell iterations h, ?_, ?_⟩
  · unfold addOrderControl
    rcases hr : retryLoop succ 0 with _ | k
    · rcases hf : fallbackLoop fsucc 0 with _ | t
      · simp
      · have := fallbackLoop_some_lt fsucc 0 t hf
        simp only []
        omega
    · have := retryLoop_some_lt succ 0 k hr
      simp only []
      omega
  · unfold addOrderControl
    rcases hr : retryLoop succ 0 with _ | k
    · rcases hf : fallbackLoop fsucc 0 with _ | t <;> simp
    · simp

/-- Witness for C6: the loop bounds at concrete inputs (empty books, an
always-failing insertion environment). -/
theorem matching_and_insertion_bounded_witness :
    (0 : Nat) ≤ MAX_MATCHING_ITERATIONS ∧
      ((matchLoop [] [] 0).2.2.2 ≤ MAX_MATCHING_ITERATIONS ∧
        (addOrderControl (fun _ => false) (fun _ => false)).2 ≤ MAX_RETRIES + 5 ∧
        ((addOrderControl (fun _ => false) (fun _ => false)).1 = false ↔
          retryLoop (fun _ => false) 0 = none ∧
            fallbackLoop (fun _ => false) 0 = none)) :=
  ⟨by decide,
    matching_and_insertion_bounded [] [] 0 (by decide) (fun _ => false) (fun _ => false)⟩

/-- C1: one step of the matching loop on books whose heads carry positive
remaining quantity produces a match iff the best bid price is ≥ the best
ask price: in the crossing case exactly one event is emitted whose matched
quantity is `min(bidRemaining, askRemaining)`, and each head's remaining
quantity is decremented by exactly that amount exactly once (the side
whose quantity reaches zero being unlinked); in the non-crossing case the
loop stops with no event and both books unchanged. -/
theorem matchLoop_single_step (b s : Order) (bs ss : List Order) (iterations : Nat)
    (hit : iterations < MAX_MATCHING_ITERATIONS) (hb : 0 < b.qty) (hs : 0 < s.qty) :
    matchLoop (b :: bs) (s :: ss) iterations =
      if b.price < s.price then (b :: bs, s :: ss, [], iterations)
      else
        let m := min b.qty s.qty
        let rest := matchLoop (if b.qty - m ≤ 0 then bs else { b with qty := b.qty - m } :: bs)
                              (if s.qty - m ≤ 0 then ss else { s with qty := s.qty - m } :: ss)
                              (iterations + 1)
        (rest.1, rest.2.1,
          ⟨m, s.price, b.oid, s.oid⟩ :: rest.2.2.1, rest.2.2.2) := by
  rw [matchLoop_cons _ _ _ _ _ hit]
  rcases lt_or_ge b.price s.price with hlt | hge
  · rw [if_pos hlt, if_pos hlt]
  · rw [if_neg (not_lt.mpr hge), if_neg (not_lt.mpr hge),
      if_neg (not_le.mpr hb), if_neg (not_le.mpr hs)]

/-- Witness for C1 (the spec's own test vector, Buy 50@150 vs Sell
50@149): the crossing heads match exactly `min 50 50` once. -/
theorem matchLoop_single_step_witness :
    matchLoop [⟨1, "Buy", "TEST", 50, 150⟩] [⟨2, "Sell", "TEST", 50, 149⟩] 0 =
      (if (150 : Int) < 149 then
        ([⟨1, "Buy", "TEST", 50, 150⟩], [⟨2, "Sell", "TEST", 50, 149⟩], [], 0)
      else
        let m := min (50 : Int) 50
        let rest := matchLoop (if (50 : Int) - m ≤ 0 then [] else [⟨1, "Buy", "TEST", 50 - m, 150⟩])
                              (if (50 : Int) - m ≤ 0 then [] else [⟨2, "Sell", "TEST", 50 - m, 149⟩])
                              1
        (rest.1, rest.2.1, ⟨m, 149, 1, 2⟩ :: rest.2.2.1, rest.2.2.2)) :=
  matchLoop_single_step ⟨1, "Buy", "TEST", 50, 150⟩ ⟨2, "Sell", "TEST", 50, 149⟩ [] [] 0
    (by decide) (by decide) (by decide)

/-! ## Sorted insertion (C2) -/

lemma bookInsert_perm (is_buy : Bool) (o : Order) (l : List Order) :
    (bookInsert is_buy o l).Perm (o :: l) := by
  induction l with
  | nil => simp [bookInsert]
  | cons x xs ih =>
    rw [bookInsert]
    split
    · exact List.Perm.refl _
    · exact (ih.cons x).trans (List.Perm.swap o x xs)

lemma priceBeats_trans_inOrder (is_buy : Bool) (p : Int) (x y : Order)
    (h1 : priceBeats is_buy p x.price = true) (h2 : inOrder is_buy x y) :
    priceBeats is_buy p y.price = true := by
  rcases h2 with h2 | ⟨h2, _⟩
  · cases is_buy <;> simp [priceBeats] at * <;> omega
  · rw [← h2]; exact h1

lemma inOrder_of_not_beats (is_buy : Bool) (o x : Order)
    (h : ¬ priceBeats is_buy o.price x.price = true) (hoid : x.oid < o.oid) :
    inOrder is_buy x o := by
  unfold inOrder
  cases is_buy <;> simp [priceBeats] at h ⊢ <;> omega

lemma bookInsert_pairwise (is_buy : Bool) (o : Order) (l : List Order)
    (hl : l.Pairwise (inOrder is_buy)) (hfresh : ∀ x ∈ l, x.oid < o.oid) :
    (bookInsert is_buy o l).Pairwise (inOrder is_buy) := by
  induction l with
  | nil => simp [bookInsert]
  | cons x xs ih =>
    rw [List.pairwise_cons] at hl
    obtain ⟨hx, hxs⟩ := hl
    rw [bookInsert]
    split
    · rename_i hbeats
      rw [List.pairwise_cons]
      refine ⟨?_, List.pairwise_cons.mpr ⟨hx, hxs⟩⟩
      intro y hy
      rw [List.mem_cons] at hy
      rcases hy with rfl | hy
      · exact Or.inl hbeats
      · exact Or.inl (priceBeats_trans_inOrder _ _ _ _ hbeats (hx y hy))
    · rename_i hnb
      rw [List.pairwise_cons]
      constructor
      · intro y hy
        have hy' : y = o ∨ y ∈ xs := by
          have := (bookInsert_perm is_buy o xs).mem_iff.mp hy
          simpa using this
        rcases hy' with rfl | hy'
        · exact inOrder_of_not_beats _ _ _ hnb (hfresh x (by simp))
        · exact hx y hy'
      · exact ih hxs (fun z hz => hfresh z (by simp [hz]))

lemma runBook_perm (is_buy : Bool) : ∀ (os book : List Order),
    (runBook is_buy book os).Perm (book ++ os) := by
  intro os
  induction os with
  | nil => intro book; simp [runBook]
  | cons o os ih =>
    intro book
    rw [runBook]
    exact (ih _).trans
      (((bookInsert_perm is_buy o book).append_right os).trans List.perm_middle.symm)

lemma runBook_pairwise (is_buy : Bool) : ∀ (os book : List Order),
    book.Pairwise (inOrder is_buy) →
    (∀ x ∈ book, ∀ o ∈ os, x.oid < o.oid) →
    os.Pairwise (fun a b => a.oid < b.oid) →
    (runBook is_buy book os).Pairwise (inOrder is_buy) := by
  intro os
  induction os with
  | nil => intro book h _ _; exact h
  | cons o os ih =>
    intro book hb hfresh hos
    rw [List.pairwise_cons] at hos
    rw [runBook]
    apply ih
    · exact bookInsert_pairwise _ _ _ hb (fun x hx => hfresh x hx o (by simp))
    · intro x hx o' ho'
      have hx' : x = o ∨ x ∈ book := by
        have := (bookInsert_perm is_buy o book).mem_iff.mp hx
        simpa using this
      rcases hx' with rfl | hx'
      · exact hos.1 o' ho'
      · exact hfresh x hx' o' (by simp [ho'])
    · exact hos.2

/-- C2: inserting any sequence of validated orders (submission order given
by strictly increasing `oid`s) into an initially empty book leaves the
reachable sequence sorted by the side's price priority with equal-price
orders in submission order (`inOrder`), containing no duplicate order
identities, and being exactly a permutation of the submitted orders (no
losses, no phantoms, and — the book being a finite list — no cycles). -/
theorem book_sorted_nodup (is_buy : Bool) (os : List Order)
    (h : os.Pairwise (fun a b => a.oid < b.oid)) :
    (runBook is_buy [] os).Pairwise (inOrder is_buy) ∧
      ((runBook is_buy [] os).map (·.oid)).Nodup ∧
      (runBook is_buy [] os).Perm os := by
  have hperm : (runBook is_buy [] os).Perm os := by
    simpa using runBook_perm is_buy os []
  refine ⟨runBook_pairwise is_buy os [] (by simp) (by simp) h, ?_, hperm⟩
  have h1 : (os.map (·.oid)).Pairwise (· < ·) := List.pairwise_map.mpr h
  have h2 : (os.map (·.oid)).Nodup := h1.imp (fun hlt => Nat.ne_of_lt hlt)
  exact ((hperm.map (·.oid)).nodup_iff).mpr h2

/-- Witness for C2: three bid submissions, two at equal price. -/
theorem book_sorted_nodup_witness :
    ([⟨0, "Buy", "X", 10, 100⟩, ⟨1, "Buy", "X", 5, 101⟩, ⟨2, "Buy", "X", 7, 100⟩] :
        List Order).Pairwise (fun a b => a.oid < b.oid) ∧
      ((runBook true [] [⟨0, "Buy", "X", 10, 100⟩, ⟨1, "Buy", "X", 5, 101⟩,
          ⟨2, "Buy", "X", 7, 100⟩]).Pairwise (inOrder true) ∧
        ((runBook true [] [⟨0, "Buy", "X", 10, 100⟩, ⟨1, "Buy", "X", 5, 101⟩,
          ⟨2, "Buy", "X", 7, 100⟩]).map (·.oid)).Nodup ∧
        (runBook true [] [⟨0, "Buy", "X", 10, 100⟩, ⟨1, "Buy", "X", 5, 101⟩,
          ⟨2, "Buy", "X", 7, 100⟩]).Perm
          [⟨0, "Buy", "X", 10, 100⟩, ⟨1, "Buy", "X", 5, 101⟩, ⟨2, "Buy", "X", 7, 100⟩]) :=
  ⟨by decide, book_sorted_nodup true _ (by decide)⟩

/-! ## Registry lemmas (C5, C10) -/

lemma hash_ticker_lt (sym : String) : hash_ticker sym < NUM_TICKERS :=
  Nat.mod_lt _ (by decide)

lemma listModify_getElem?_self (f : α → α) : ∀ (j : Nat) (l : List α),
    (listModify f j l)[j]? = (l[j]?).map f
  | _, [] => by simp [listModify]
  | 0, x :: xs => by simp [listModify]
  | j + 1, x :: xs => by
    simp only [listModify, List.getElem?_cons_succ]
    exact listModify_getElem?_self f j xs

lemma nodeAt_updateNode_self (ts : Registry) (i j : Nat) (f : TickerNode → TickerNode)
    (hi : i < ts.length) :
    nodeAt (updateNode ts i j f) i j = (nodeAt ts i j).map f := by
  unfold nodeAt updateNode
  rw [List.getD_eq_getElem?_getD, List.getElem?_set_self hi]
  rw [List.getD_eq_getElem?_getD]
  simp [listModify_getElem?_self]

lemma get_or_create_books_found (ts : Registry) (sym : String) (j : Nat)
    (hfind : (ts.getD (hash_ticker sym) []).findIdx?
      (fun nd => nd.ticker_symbol == sym) = some j) :
    get_or_create_books ts sym = (ts, hash_ticker sym, j) := by
  simp only [get_or_create_books]
  rw [hfind]

lemma get_or_create_books_notfound (ts : Registry) (sym : String)
    (hfind : (ts.getD (hash_ticker sym) []).findIdx?
      (fun nd => nd.ticker_symbol == sym) = none) :
    get_or_create_books ts sym =
      (ts.set (hash_ticker sym) ((ts.getD (hash_ticker sym) []) ++ [⟨sym, [], []⟩]),
        hash_ticker sym, (ts.getD (hash_ticker sym) []).length) := by
  simp only [get_or_create_books]
  rw [hfind]

lemma findIdx?_append_singleton_none {α : Type} {p : α → Bool} {l : List α} {a : α}
    (hl : l.findIdx? p = none) (ha : p a = true) :
    (l ++ [a]).findIdx? p = some l.length := by
  rw [List.findIdx?_append, hl]
  simp [List.findIdx?_cons, ha]

lemma found_symbol_eq (ts : Registry) (sym : String) (j : Nat)
    (hfind : (ts.getD (hash_ticker sym) []).findIdx?
      (fun nd => nd.ticker_symbol == sym) = some j) :
    ∃ nd, (ts.getD (hash_ticker sym) [])[j]? = some nd ∧ nd.ticker_symbol = sym := by
  obtain ⟨hjlt, hfi⟩ := List.findIdx?_eq_some_iff_findIdx_eq.mp hfind
  refine ⟨(ts.getD (hash_ticker sym) []).get ⟨j, hjlt⟩, ?_, ?_⟩
  · simp [List.getElem?_eq_getElem hjlt]
  · subst hfi
    have hp := @List.findIdx_getElem _ (fun nd => nd.ticker_symbol == sym)
      (ts.getD (hash_ticker sym) []) hjlt
    simpa using hp

lemma get_or_create_books_node (ts : Registry) (sym : String)
    (hlen : ts.length = NUM_TICKERS) :
    (get_or_create_books ts sym).1.length = NUM_TICKERS ∧
      ∃ nd, nodeAt (get_or_create_books ts sym).1 (get_or_create_books ts sym).2.1
        (get_or_create_books ts sym).2.2 = some nd ∧ nd.ticker_symbol = sym := by
  have hidx : hash_ticker sym < ts.length := hlen ▸ hash_ticker_lt sym
  rcases hfind : (ts.getD (hash_ticker sym) []).findIdx?
      (fun nd => nd.ticker_symbol == sym) with _ | j
  · rw [get_or_create_books_notfound _ _ hfind]
    refine ⟨by simp [hlen], ⟨sym, [], []⟩, ?_, rfl⟩
    unfold nodeAt
    rw [List.getD_eq_getElem?_getD, List.getElem?_set_self hidx]
    simp [List.getElem?_concat_length]
  · rw [get_or_create_books_found _ _ _ hfind]
    obtain ⟨nd, hnd, hsym⟩ := found_symbol_eq ts sym j hfind
    exact ⟨hlen, nd, hnd, hsym⟩

lemma get_or_create_books_wf (ts : Registry) (sym : String) (hwf : RegistryWF ts) :
    RegistryWF (get_or_create_books ts sym).1 := by
  obtain ⟨hlen, hb⟩ := hwf
  have hidx : hash_ticker sym < ts.length := hlen ▸ hash_ticker_lt sym
  rcases hfind : (ts.getD (hash_ticker sym) []).findIdx?
      (fun nd => nd.ticker_symbol == sym) with _ | j
  · rw [get_or_create_books_notfound _ _ hfind]
    refine ⟨by simp [hlen], fun i => ?_⟩
    by_cases hi : i = hash_ticker sym
    · subst hi
      have hbucket : (ts.set (hash_ticker sym) ((ts.getD (hash_ticker sym) []) ++
          [⟨sym, [], []⟩])).getD (hash_ticker sym) [] =
          (ts.getD (hash_ticker sym) []) ++ [⟨sym, [], []⟩] := by
        rw [List.getD_eq_getElem?_getD, List.getElem?_set_self hidx]
        rfl
      rw [hbucket]
      have hnotin : ∀ nd ∈ ts.getD (hash_ticker sym) [], nd.ticker_symbol ≠ sym := by
        intro nd hnd
        have := List.findIdx?_eq_none_iff.mp hfind nd hnd
        simpa using this
      constructor
      · intro nd hnd
        rcases List.mem_append.mp hnd with hnd | hnd
        · exact (hb (hash_ticker sym)).1 nd hnd
        · rcases List.mem_singleton.mp hnd with rfl
          rfl
      · rw [List.map_append, List.nodup_append]
        refine ⟨(hb (hash_ticker sym)).2, by simp, ?_⟩
        intro a ha ha'
        rw [List.mem_map] at ha
        obtain ⟨nd, hnd, rfl⟩ := ha
        rcases List.mem_singleton.mp ha' with h
        exact hnotin nd hnd h
    · have hbucket : (ts.set (hash_ticker sym) ((ts.getD (hash_ticker sym) []) ++
          [⟨sym, [], []⟩])).getD i [] = ts.getD i [] := by
        rw [List.getD_eq_getElem?_getD, List.getElem?_set_ne (fun h => hi h.symm),
          List.getD_eq_getElem?_getD]
      rw [hbucket]
      exact hb i
  · rw [get_or_create_books_found _ _ _ hfind]
    exact ⟨hlen, hb⟩

lemma registry_at_most_one (ts : Registry) (hwf : RegistryWF ts)
    (i j i' j' : Nat) (nd nd' : TickerNode)
    (h1 : nodeAt ts i j = some nd) (h2 : nodeAt ts i' j' = some nd')
    (hsym : nd.ticker_symbol = nd'.ticker_symbol) : i = i' ∧ j = j' := by
  obtain ⟨hlen, hb⟩ := hwf
  unfold nodeAt at h1 h2
  have hmem : nd ∈ ts.getD i [] := List.getElem?_mem h1
  have hmem' : nd' ∈ ts.getD i' [] := List.getElem?_mem h2
  have hii : i = i' := by
    rw [← (hb i).1 nd hmem, ← (hb i').1 nd' hmem', hsym]
  subst hii
  obtain ⟨hj, hv⟩ := List.getElem?_eq_some.mp h1
  obtain ⟨hj', hv'⟩ := List.getElem?_eq_some.mp h2
  have hjm : j < (List.map (·.ticker_symbol) (ts.getD i [])).length := by simpa using hj
  have hjm' : j' < (List.map (·.ticker_symbol) (ts.getD i [])).length := by simpa using hj'
  have hmap : (List.map (·.ticker_symbol) (ts.getD i []))[j] =
      (List.map (·.ticker_symbol) (ts.getD i []))[j'] := by
    rw [List.getElem_map, List.getElem_map, hv, hv', hsym]
  exact ⟨rfl, ((hb i).2.getElem_inj_iff).mp hmap⟩

lemma get_or_create_preserves (ts : Registry) (sym' : String) (i j : Nat) (nd : TickerNode)
    (hlen : ts.length = NUM_TICKERS)
    (hnode : nodeAt ts i j = some nd) (hne : nd.ticker_symbol ≠ sym') :
    (get_or_create_books ts sym').2 ≠ (i, j) ∧
      nodeAt (get_or_create_books ts sym').1 i j = some nd := by
  have hj : j < (ts.getD i []).length := by
    unfold nodeAt at hnode
    exact (List.getElem?_eq_some.mp hnode).1
  rcases hfind : (ts.getD (hash_ticker sym') []).findIdx?
      (fun nd => nd.ticker_symbol == sym') with _ | j''
  · rw [get_or_create_books_notfound _ _ hfind]
    constructor
    · intro hpair
      rw [Prod.mk.injEq] at hpair
      obtain ⟨hi, hjj⟩ := hpair
      rw [← hi] at hj
      omega
    · by_cases hi : hash_ticker sym' = i
      · subst hi
        unfold nodeAt at hnode ⊢
        rw [List.getD_eq_getElem?_getD,
          List.getElem?_set_self (hlen ▸ hash_ticker_lt sym')]
        simp only [Option.getD_some]
        rw [List.getElem?_append, if_pos hj]
        exact hnode
      · unfold nodeAt at hnode ⊢
        rw [List.getD_eq_getElem?_getD, List.getElem?_set_ne hi,
          ← List.getD_eq_getElem?_getD]
        exact hnode
  · rw [get_or_create_books_found _ _ _ hfind]
    refine ⟨?_, hnode⟩
    intro hpair
    rw [Prod.mk.injEq] at hpair
    obtain ⟨hi, hjj⟩ := hpair
    obtain ⟨nd'', hnd'', hsym''⟩ := found_symbol_eq ts sym' j'' hfind
    unfold nodeAt at hnode
    rw [hi, hjj] at hnd''
    rw [hnode] at hnd''
    rw [Option.some_inj] at hnd''
    rw [← hnd''] at hsym''
    exact hne hsym''

lemma initRegistry_wf : RegistryWF initRegistry := by
  have hempty : ∀ i, initRegistry.getD i [] = [] := by
    intro i
    rw [initRegistry, List.getD_eq_getElem?_getD, List.getElem?_replicate]
    split <;> rfl
  refine ⟨by simp [initRegistry], fun i => ?_⟩
  rw [hempty]
  exact ⟨by simp, by simp⟩

lemma get_or_create_books_fst_idx (ts : Registry) (sym : String) :
    (get_or_create_books ts sym).2.1 = hash_ticker sym := by
  rcases hfind : (ts.getD (hash_ticker sym) []).findIdx?
      (fun nd => nd.ticker_symbol == sym) with _ | j
  · rw [get_or_create_books_notfound _ _ hfind]
  · rw [get_or_create_books_found _ _ _ hfind]

/-- C5: under registry well-formedness, `get_or_create_books` keeps the
registry well-formed (in particular at most one entry per distinct symbol
exists anywhere), a repeated call for the same symbol returns exactly the
same location — hence the same `(buy_book, sell_book)` pair — without
mutating the registry, the location really holds a node for the symbol,
a call for any *different* symbol (hash collisions included) returns a
different location and leaves this symbol's node untouched, and two nodes
carrying the same symbol can only be the same location. -/
theorem registry_stable_unique_isolated (ts : Registry) (sym : String)
    (hwf : RegistryWF ts) :
    RegistryWF (get_or_create_books ts sym).1 ∧
      get_or_create_books (get_or_create_books ts sym).1 sym =
        get_or_create_books ts sym ∧
      (∃ nd, nodeAt (get_or_create_books ts sym).1 (get_or_create_books ts sym).2.1
          (get_or_create_books ts sym).2.2 = some nd ∧ nd.ticker_symbol = sym) ∧
      (∀ sym', sym' ≠ sym →
        (get_or_create_books (get_or_create_books ts sym).1 sym').2 ≠
            ((get_or_create_books ts sym).2.1, (get_or_create_books ts sym).2.2) ∧
          nodeAt (get_or_create_books (get_or_create_books ts sym).1 sym').1
              (get_or_create_books ts sym).2.1 (get_or_create_books ts sym).2.2 =
            nodeAt (get_or_create_books ts sym).1 (get_or_create_books ts sym).2.1
              (get_or_create_books ts sym).2.2) ∧
      ∀ i j i' j' nd nd', nodeAt (get_or_create_books ts sym).1 i j = some nd →
        nodeAt (get_or_create_books ts sym).1 i' j' = some nd' →
        nd.ticker_symbol = nd'.ticker_symbol → i = i' ∧ j = j' := by
  have hwf' := get_or_create_books_wf ts sym hwf
  obtain ⟨hlen', nd, hnd, hsym⟩ := get_or_create_books_node ts sym hwf.1
  have hidx : hash_ticker sym < ts.length := hwf.1 ▸ hash_ticker_lt sym
  refine ⟨hwf', ?_, ⟨nd, hnd, hsym⟩, ?_, ?_⟩
  · rcases hfind : (ts.getD (hash_ticker sym) []).findIdx?
        (fun nd => nd.ticker_symbol == sym) with _ | j
    · rw [get_or_create_books_notfound _ _ hfind]
      apply get_or_create_books_found
      have hbucket : (ts.set (hash_ticker sym) ((ts.getD (hash_ticker sym) []) ++
          [⟨sym, [], []⟩])).getD (hash_ticker sym) [] =
          (ts.getD (hash_ticker sym) []) ++ [⟨sym, [], []⟩] := by
        rw [List.getD_eq_getElem?_getD, List.getElem?_set_self hidx]
        rfl
      rw [hbucket]
      exact findIdx?_append_singleton_none hfind (by simp)
    · rw [get_or_create_books_found _ _ _ hfind,
        get_or_create_books_found _ _ _ hfind]
  · intro sym' hne
    obtain ⟨h1, h2⟩ := get_or_create_preserves (get_or_create_books ts sym).1 sym'
      (get_or_create_books ts sym).2.1 (get_or_create_books ts sym).2.2 nd hlen' hnd
      (by rw [hsym]; exact Ne.symm hne)
    exact ⟨h1, by rw [h2, hnd]⟩
  · intro i j i' j' nd1 nd2 h1 h2 hs
    exact registry_at_most_one _ hwf' i j i' j' nd1 nd2 h1 h2 hs

/-- Witness for C5, at the empty registry and symbol "AAPL". -/
theorem registry_stable_unique_isolated_witness :
    RegistryWF initRegistry ∧
      (RegistryWF (get_or_create_books initRegistry "AAPL").1 ∧
        get_or_create_books (get_or_create_books initRegistry "AAPL").1 "AAPL" =
          get_or_create_books initRegistry "AAPL" ∧
        (∃ nd, nodeAt (get_or_create_books initRegistry "AAPL").1
            (get_or_create_books initRegistry "AAPL").2.1
            (get_or_create_books initRegistry "AAPL").2.2 = some nd ∧
            nd.ticker_symbol = "AAPL") ∧
        (∀ sym', sym' ≠ "AAPL" →
          (get_or_create_books (get_or_create_books initRegistry "AAPL").1 sym').2 ≠
              ((get_or_create_books initRegistry "AAPL").2.1,
                (get_or_create_books initRegistry "AAPL").2.2) ∧
            nodeAt (get_or_create_books (get_or_create_books initRegistry "AAPL").1 sym').1
                (get_or_create_books initRegistry "AAPL").2.1
                (get_or_create_books initRegistry "AAPL").2.2 =
              nodeAt (get_or_create_books initRegistry "AAPL").1
                (get_or_create_books initRegistry "AAPL").2.1
                (get_or_create_books initRegistry "AAPL").2.2) ∧
        ∀ i j i' j' nd nd',
          nodeAt (get_or_create_books initRegistry "AAPL").1 i j = some nd →
          nodeAt (get_or_create_books initRegistry "AAPL").1 i' j' = some nd' →
          nd.ticker_symbol = nd'.ticker_symbol → i = i' ∧ j = j') :=
  ⟨initRegistry_wf, registry_stable_unique_isolated initRegistry "AAPL" initRegistry_wf⟩

/-- C10: a validated order (positive quantity and price) is inserted into
the buy book iff `order_type` is exactly the string "Buy"; every other
`order_type` string is routed to the sell book.  The target node's other
book is untouched in either case. -/
theorem addOrder_routes_by_type (ts : Registry) (order_type ticker_symbol : String)
    (quantity price : Int) (oid : Nat) (hq : 0 < quantity) (hp : 0 < price)
    (hlen : ts.length = NUM_TICKERS) :
    ∃ nd : TickerNode,
      nodeAt (get_or_create_books ts ticker_symbol).1
          (get_or_create_books ts ticker_symbol).2.1
          (get_or_create_books ts ticker_symbol).2.2 = some nd ∧
        nd.ticker_symbol = ticker_symbol ∧
        (addOrder ts order_type ticker_symbol quantity price oid).1 =
          some ⟨oid, order_type, ticker_symbol, quantity, price⟩ ∧
        nodeAt (addOrder ts order_type ticker_symbol quantity price oid).2
            (get_or_create_books ts ticker_symbol).2.1
            (get_or_create_books ts ticker_symbol).2.2 =
          some (if order_type = "Buy" then
              { nd with buy_book := bookInsert true ⟨oid, order_type, ticker_symbol, quantity, price⟩ nd.buy_book }
            else
              { nd with sell_book := bookInsert false ⟨oid, order_type, ticker_symbol, quantity, price⟩ nd.sell_book }) := by
  obtain ⟨hlen', nd, hnd, hsym⟩ := get_or_create_books_node ts ticker_symbol hlen
  have hidx2 : (get_or_create_books ts ticker_symbol).2.1 <
      (get_or_create_books ts ticker_symbol).1.length := by
    rw [hlen', get_or_create_books_fst_idx]
    exact hash_ticker_lt ticker_symbol
  refine ⟨nd, hnd, hsym, ?_, ?_⟩
  · simp only [addOrder]
    rw [if_neg (not_le.mpr hq), if_neg (not_le.mpr hp)]
  · simp only [addOrder]
    rw [if_neg (not_le.mpr hq), if_neg (not_le.mpr hp)]
    rw [nodeAt_updateNode_self _ _ _ _ hidx2, hnd]
    simp only [Option.map_some']
    by_cases hbuy : order_type = "Buy"
    · simp [hbuy]
    · have hb : (order_type == "Buy") = false := by
        simpa using hbuy
      simp [hb, hbuy]

/-- Witness for C10: an unrecognized order type ("Hold") is routed to the
sell book of the fresh "TSLA" node. -/
theorem addOrder_routes_by_type_witness :
    (0 : Int) < 10 ∧ (0 : Int) < 99 ∧ initRegistry.length = NUM_TICKERS ∧
      ∃ nd : TickerNode,
        nodeAt (get_or_create_books initRegistry "TSLA").1
            (get_or_create_books initRegistry "TSLA").2.1
            (get_or_create_books initRegistry "TSLA").2.2 = some nd ∧
          nd.ticker_symbol = "TSLA" ∧
          (addOrder initRegistry "Hold" "TSLA" 10 99 3).1 =
            some ⟨3, "Hold", "TSLA", 10, 99⟩ ∧
          nodeAt (addOrder initRegistry "Hold" "TSLA" 10 99 3).2
              (get_or_create_books initRegistry "TSLA").2.1
              (get_or_create_books initRegistry "TSLA").2.2 =
            some (if ("Hold" : String) = "Buy" then
                { nd with buy_book := bookInsert true ⟨3, "Hold", "TSLA", 10, 99⟩ nd.buy_book }
              else
                { nd with sell_book := bookInsert false ⟨3, "Hold", "TSLA", 10, 99⟩ nd.sell_book }) :=
  ⟨by decide, by decide, initRegistry_wf.1,
    addOrder_routes_by_type initRegistry "Hold" "TSLA" 10 99 3
      (by decide) (by decide) initRegistry_wf.1⟩

/-! ## Quantity accounting (C3) -/

lemma consumedBuy_nil (oid : Nat) : consumedBuy oid [] = 0 := rfl

lemma consumedSell_nil (oid : Nat) : consumedSell oid [] = 0 := rfl

lemma consumedBuy_cons (oid : Nat) (ev : MatchEvent) (evs : List MatchEvent) :
    consumedBuy oid (ev :: evs) =
      (if ev.buyOid = oid then ev.matched else 0) + consumedBuy oid evs := by
  unfold consumedBuy
  rcases eq_or_ne ev.buyOid oid with h | h
  · simp [List.filter_cons, h]
  · simp [List.filter_cons, h]

lemma consumedSell_cons (oid : Nat) (ev : MatchEvent) (evs : List MatchEvent) :
    consumedSell oid (ev :: evs) =
      (if ev.sellOid = oid then ev.matched else 0) + consumedSell oid evs := by
  unfold consumedSell
  rcases eq_or_ne ev.sellOid oid with h | h
  · simp [List.filter_cons, h]
  · simp [List.filter_cons, h]

lemma consumedBuy_eq_zero (oid : Nat) (evs : List MatchEvent)
    (h : ∀ ev ∈ evs, ev.buyOid ≠ oid) : consumedBuy oid evs = 0 := by
  induction evs with
  | nil => rfl
  | cons ev evs ih =>
    rw [consumedBuy_cons, if_neg (h ev (by simp))]
    simpa using ih (fun e he => h e (by simp [he]))

lemma consumedSell_eq_zero (oid : Nat) (evs : List MatchEvent)
    (h : ∀ ev ∈ evs, ev.sellOid ≠ oid) : consumedSell oid evs = 0 := by
  induction evs with
  | nil => rfl
  | cons ev evs ih =>
    rw [consumedSell_cons, if_neg (h ev (by simp))]
    simpa using ih (fun e he => h e (by simp [he]))

lemma matchLoop_oids (buy sell : List Order) (iterations : Nat) :
    ((matchLoop buy sell iterations).1.map (·.oid)).Sublist (buy.map (·.oid)) ∧
      ((matchLoop buy sell iterations).2.1.map (·.oid)).Sublist (sell.map (·.oid)) ∧
      ∀ ev ∈ (matchLoop buy sell iterations).2.2.1,
        ev.buyOid ∈ buy.map (·.oid) ∧ ev.sellOid ∈ sell.map (·.oid) := by
  induction buy, sell, iterations using matchLoop.induct with
  | case1 sell it hit =>
    rw [matchLoop_nil_left]
    simp
  | case2 buy it hit hne =>
    rw [matchLoop_nil_right]
    simp
  | case3 it hit b bs s ss hlt =>
    rw [matchLoop_cons _ _ _ _ _ hit, if_pos hlt]
    simp
  | case4 it hit b bs s ss hlt hq ih =>
    rw [matchLoop_cons _ _ _ _ _ hit, if_neg hlt, if_pos hq]
    obtain ⟨ih1, ih2, ih3⟩ := ih
    refine ⟨ih1.trans ((List.sublist_cons_self b bs).map (·.oid)), ih2, ?_⟩
    intro ev hev
    obtain ⟨h1, h2⟩ := ih3 ev hev
    exact ⟨List.mem_cons_of_mem _ h1, h2⟩
  | case5 it hit b bs s ss hlt hbq hsq ih =>
    rw [matchLoop_cons _ _ _ _ _ hit, if_neg hlt, if_neg hbq, if_pos hsq]
    obtain ⟨ih1, ih2, ih3⟩ := ih
    refine ⟨ih1, ih2.trans ((List.sublist_cons_self s ss).map (·.oid)), ?_⟩
    intro ev hev
    obtain ⟨h1, h2⟩ := ih3 ev hev
    exact ⟨h1, List.mem_cons_of_mem _ h2⟩
  | case6 it hit b bs s ss hlt hbq hsq mq b' s' ih =>
    rw [matchLoop_cons _ _ _ _ _ hit, if_neg hlt, if_neg hbq, if_neg hsq]
    simp only [dite_eq_ite] at ih
    obtain ⟨ih1, ih2, ih3⟩ := ih
    have hbsub : ((if ({ b with qty := b.qty - min b.qty s.qty } : Order).qty ≤ 0 then bs
        else { b with qty := b.qty - min b.qty s.qty } :: bs).map (·.oid)).Sublist
        ((b :: bs).map (·.oid)) := by
      split
      · exact ((List.sublist_cons_self b bs).map (·.oid))
      · simp only [List.map_cons]
        exact List.Sublist.refl _
    have hssub : ((if ({ s with qty := s.qty - min b.qty s.qty } : Order).qty ≤ 0 then ss
        else { s with qty := s.qty - min b.qty s.qty } :: ss).map (·.oid)).Sublist
        ((s :: ss).map (·.oid)) := by
      split
      · exact ((List.sublist_cons_self s ss).map (·.oid))
      · simp only [List.map_cons]
        exact List.Sublist.refl _
    refine ⟨ih1.trans hbsub, ih2.trans hssub, ?_⟩
    intro ev hev
    rcases List.mem_cons.mp hev with rfl | hev
    · exact ⟨by simp, by simp⟩
    · obtain ⟨h1, h2⟩ := ih3 ev hev
      exact ⟨hbsub.subset h1, hssub.subset h2⟩
  | case7 buy sell it hit =>
    rw [matchLoop_stop _ _ _ hit]
    simp

/-- C3: starting from books whose orders all carry positive remaining
quantity and distinct identities (the state produced by validated
insertions), the matching pass leaves only positive quantities in the
books (so a quantity that reaches zero is unlinked and nothing is ever
negative), every emitted match is strictly positive (quantities only ever
decrease), and every input order either survives with its identity and
exactly its original quantity minus the total matched against it, or is
unlinked precisely when the total matched against it equals its whole
original quantity (unlinked iff remaining quantity reached zero). -/
theorem quantity_monotone_unlinked_iff_zero (buy sell : List Order) (iterations : Nat) :
    (∀ o ∈ buy, 0 < o.qty) → (∀ o ∈ sell, 0 < o.qty) →
    (buy.map (·.oid)).Nodup → (sell.map (·.oid)).Nodup →
    (∀ o ∈ (matchLoop buy sell iterations).1, 0 < o.qty) ∧
      (∀ o ∈ (matchLoop buy sell iterations).2.1, 0 < o.qty) ∧
      (∀ ev ∈ (matchLoop buy sell iterations).2.2.1, 0 < ev.matched) ∧
      (∀ o ∈ buy,
        (∃ o' ∈ (matchLoop buy sell iterations).1, o'.oid = o.oid ∧
            o'.qty = o.qty - consumedBuy o.oid (matchLoop buy sell iterations).2.2.1) ∨
          (o.oid ∉ (matchLoop buy sell iterations).1.map (·.oid) ∧
            consumedBuy o.oid (matchLoop buy sell iterations).2.2.1 = o.qty)) ∧
      ∀ o ∈ sell,
        (∃ o' ∈ (matchLoop buy sell iterations).2.1, o'.oid = o.oid ∧
            o'.qty = o.qty - consumedSell o.oid (matchLoop buy sell iterations).2.2.1) ∨
          (o.oid ∉ (matchLoop buy sell iterations).2.1.map (·.oid) ∧
            consumedSell o.oid (matchLoop buy sell iterations).2.2.1 = o.qty) := by
  induction buy, sell, iterations using matchLoop.induct with
  | case1 sell it hit =>
    intro hb hs hnb hns
    rw [matchLoop_nil_left]
    refine ⟨by simp, hs, by simp, by simp, ?_⟩
    intro o ho
    exact Or.inl ⟨o, ho, rfl, by simp [consumedSell_nil]⟩
  | case2 buy it hit hne =>
    intro hb hs hnb hns
    rw [matchLoop_nil_right]
    refine ⟨hb, by simp, by simp, ?_, by simp⟩
    intro o ho
    exact Or.inl ⟨o, ho, rfl, by simp [consumedBuy_nil]⟩
  | case3 it hit b bs s ss hlt =>
    intro hb hs hnb hns
    rw [matchLoop_cons _ _ _ _ _ hit, if_pos hlt]
    refine ⟨hb, hs, by simp, ?_, ?_⟩
    · intro o ho
      exact Or.inl ⟨o, ho, rfl, by simp [consumedBuy_nil]⟩
    · intro o ho
      exact Or.inl ⟨o, ho, rfl, by simp [consumedSell_nil]⟩
  | case4 it hit b bs s ss hlt hq ih =>
    intro hb hs hnb hns
    exact absurd (hb b (List.mem_cons_self b bs)) (by omega)
  | case5 it hit b bs s ss hlt hbq hsq ih =>
    intro hb hs hnb hns
    exact absurd (hs s (List.mem_cons_self s ss)) (by omega)
  | case6 it hit b bs s ss hlt hbq hsq mq b' s' ih =>
    intro hb hs hnb hns
    simp only [dite_eq_ite] at ih
    have hmqe : mq = min b.qty s.qty := rfl
    have hboid : b'.oid = b.oid := rfl
    have hbqty : b'.qty = b.qty - mq := rfl
    have hsoid : s'.oid = s.oid := rfl
    have hsqty : s'.qty = s.qty - mq := rfl
    have hstep : matchLoop (b :: bs) (s :: ss) it =
        ((matchLoop (if b.qty - mq ≤ 0 then bs else b' :: bs)
            (if s.qty - mq ≤ 0 then ss else s' :: ss) (it + 1)).1,
          (matchLoop (if b.qty - mq ≤ 0 then bs else b' :: bs)
            (if s.qty - mq ≤ 0 then ss else s' :: ss) (it + 1)).2.1,
          ⟨mq, s.price, b.oid, s.oid⟩ ::
            (matchLoop (if b.qty - mq ≤ 0 then bs else b' :: bs)
              (if s.qty - mq ≤ 0 then ss else s' :: ss) (it + 1)).2.2.1,
          (matchLoop (if b.qty - mq ≤ 0 then bs else b' :: bs)
            (if s.qty - mq ≤ 0 then ss else s' :: ss) (it + 1)).2.2.2) := by
      rw [matchLoop_cons _ _ _ _ _ hit, if_neg hlt, if_neg hbq, if_neg hsq]
    rw [hstep]
    dsimp only
    have hnotinb : b.oid ∉ bs.map (·.oid) := (List.nodup_cons.mp (by simpa using hnb)).1
    have hnotins : s.oid ∉ ss.map (·.oid) := (List.nodup_cons.mp (by simpa using hns)).1
    have hb' : ∀ o ∈ (if b.qty - mq ≤ 0 then bs else b' :: bs), 0 < o.qty := by
      split
      · exact fun o ho => hb o (List.mem_cons_of_mem _ ho)
      · next hcond =>
        intro o ho
        rcases List.mem_cons.mp ho with rfl | ho
        · rw [hbqty]
          omega
        · exact hb o (List.mem_cons_of_mem _ ho)
    have hs' : ∀ o ∈ (if s.qty - mq ≤ 0 then ss else s' :: ss), 0 < o.qty := by
      split
      · exact fun o ho => hs o (List.mem_cons_of_mem _ ho)
      · next hcond =>
        intro o ho
        rcases List.mem_cons.mp ho with rfl | ho
        · rw [hsqty]
          omega
        · exact hs o (List.mem_cons_of_mem _ ho)
    have hnb' : ((if b.qty - mq ≤ 0 then bs else b' :: bs).map (·.oid)).Nodup := by
      split
      · exact (List.nodup_cons.mp (by simpa using hnb)).2
      · rw [List.map_cons, hboid]
        simpa using hnb
    have hns' : ((if s.qty - mq ≤ 0 then ss else s' :: ss).map (·.oid)).Nodup := by
      split
      · exact (List.nodup_cons.mp (by simpa using hns)).2
      · rw [List.map_cons, hsoid]
        simpa using hns
    obtain ⟨ih1, ih2, ih3, ih4, ih5⟩ := ih hb' hs' hnb' hns'
    obtain ⟨hsub1, hsub2, hevs⟩ := matchLoop_oids
      (if b.qty - mq ≤ 0 then bs else b' :: bs)
      (if s.qty - mq ≤ 0 then ss else s' :: ss) (it + 1)
    refine ⟨ih1, ih2, ?_, ?_, ?_⟩
    · intro ev hev
      rcases List.mem_cons.mp hev with rfl | hev
      · show 0 < mq
        omega
      · exact ih3 ev hev
    · intro o ho
      rcases List.mem_cons.mp ho with rfl | ho
      · by_cases hb0 : o.qty - mq ≤ 0
        · refine Or.inr ⟨?_, ?_⟩
          · rw [if_pos hb0] at hsub1
            rw [if_pos hb0]
            intro hmem
            exact hnotinb (hsub1.subset hmem)
          · rw [consumedBuy_cons, if_pos (show ({ matched := mq, price := s.price, buyOid := o.oid, sellOid := s.oid } : MatchEvent).buyOid = o.oid from rfl)]
            have hzero : consumedBuy o.oid
                (matchLoop (if o.qty - mq ≤ 0 then bs else b' :: bs)
                  (if s.qty - mq ≤ 0 then ss else s' :: ss) (it + 1)).2.2.1 = 0 := by
              apply consumedBuy_eq_zero
              intro ev hev heq
              have hm := (hevs ev hev).1
              rw [if_pos hb0] at hm
              rw [heq] at hm
              exact hnotinb hm
            rw [hzero]
            dsimp only
            omega
        · have hmemb' : b' ∈ (if o.qty - mq ≤ 0 then bs else b' :: bs) := by
            rw [if_neg hb0]
            exact List.mem_cons_self _ _
          have hc : consumedBuy b'.oid
              (matchLoop (if o.qty - mq ≤ 0 then bs else b' :: bs)
                (if s.qty - mq ≤ 0 then ss else s' :: ss) (it + 1)).2.2.1 =
              consumedBuy o.oid
              (matchLoop (if o.qty - mq ≤ 0 then bs else b' :: bs)
                (if s.qty - mq ≤ 0 then ss else s' :: ss) (it + 1)).2.2.1 := by
            rw [hboid]
          rcases ih4 _ hmemb' with ⟨o', ho', hoid, hqty⟩ | ⟨hnm, hcons⟩
          · refine Or.inl ⟨o', ho', hoid.trans hboid, ?_⟩
            rw [consumedBuy_cons, if_pos (show ({ matched := mq, price := s.price, buyOid := o.oid, sellOid := s.oid } : MatchEvent).buyOid = o.oid from rfl)]
            dsimp only
            omega
          · refine Or.inr ⟨fun hmem => hnm (by rw [hboid]; exact hmem), ?_⟩
            rw [consumedBuy_cons, if_pos (show ({ matched := mq, price := s.price, buyOid := o.oid, sellOid := s.oid } : MatchEvent).buyOid = o.oid from rfl)]
            dsimp only
            omega
      · have hne : b.oid ≠ o.oid :=
          fun heq => hnotinb (by rw [heq]; exact List.mem_map_of_mem (·.oid) ho)
        have hmemb' : o ∈ (if b.qty - mq ≤ 0 then bs else b' :: bs) := by
          split
          · exact ho
          · exact List.mem_cons_of_mem _ ho
        have hni : ¬ ({ matched := mq, price := s.price, buyOid := b.oid, sellOid := s.oid } : MatchEvent).buyOid = o.oid := by
          simpa using hne
        rw [consumedBuy_cons, if_neg hni, zero_add]
        exact ih4 o hmemb'
    · intro o ho
      rcases List.mem_cons.mp ho with rfl | ho
      · by_cases hs0 : o.qty - mq ≤ 0
        · refine Or.inr ⟨?_, ?_⟩
          · rw [if_pos hs0] at hsub2
            rw [if_pos hs0]
            intro hmem
            exact hnotins (hsub2.subset hmem)
          · rw [consumedSell_cons, if_pos (show ({ matched := mq, price := o.price, buyOid := b.oid, sellOid := o.oid } : MatchEvent).sellOid = o.oid from rfl)]
            have hzero : consumedSell o.oid
                (matchLoop (if b.qty - mq ≤ 0 then bs else b' :: bs)
                  (if o.qty - mq ≤ 0 then ss else s' :: ss) (it + 1)).2.2.1 = 0 := by
              apply consumedSell_eq_zero
              intro ev hev heq
              have hm := (hevs ev hev).2
              rw [if_pos hs0] at hm
              rw [heq] at hm
              exact hnotins hm
            rw [hzero]
            dsimp only
            omega
        · have hmems' : s' ∈ (if o.qty - mq ≤ 0 then ss else s' :: ss) := by
            rw [if_neg hs0]
            exact List.mem_cons_self _ _
          have hc : consumedSell s'.oid
              (matchLoop (if b.qty - mq ≤ 0 then bs else b' :: bs)
                (if o.qty - mq ≤ 0 then ss else s' :: ss) (it + 1)).2.2.1 =
              consumedSell o.oid
              (matchLoop (if b.qty - mq ≤ 0 then bs else b' :: bs)
                (if o.qty - mq ≤ 0 then ss else s' :: ss) (it + 1)).2.2.1 := by
            rw [hsoid]
          rcases ih5 _ hmems' with ⟨o', ho', hoid, hqty⟩ | ⟨hnm, hcons⟩
          · refine Or.inl ⟨o', ho', hoid.trans hsoid, ?_⟩
            rw [consumedSell_cons, if_pos (show ({ matched := mq, price := o.price, buyOid := b.oid, sellOid := o.oid } : MatchEvent).sellOid = o.oid from rfl)]
            dsimp only
            omega
          · refine Or.inr ⟨fun hmem => hnm (by rw [hsoid]; exact hmem), ?_⟩
            rw [consumedSell_cons, if_pos (show ({ matched := mq, price := o.price, buyOid := b.oid, sellOid := o.oid } : MatchEvent).sellOid = o.oid from rfl)]
            dsimp only
            omega
      · have hne : s.oid ≠ o.oid :=
          fun heq => hnotins (by rw [heq]; exact List.mem_map_of_mem (·.oid) ho)
        have hmems' : o ∈ (if s.qty - mq ≤ 0 then ss else s' :: ss) := by
          split
          · exact ho
          · exact List.mem_cons_of_mem _ ho
        have hni : ¬ ({ matched := mq, price := s.price, buyOid := b.oid, sellOid := s.oid } : MatchEvent).sellOid = o.oid := by
          simpa using hne
        rw [consumedSell_cons, if_neg hni, zero_add]
        exact ih5 o hmems'
  | case7 buy sell it hit =>
    intro hb hs hnb hns
    rw [matchLoop_stop _ _ _ hit]
    refine ⟨hb, hs, by simp, ?_, ?_⟩
    · intro o ho
      exact Or.inl ⟨o, ho, rfl, by simp [consumedBuy_nil]⟩
    · intro o ho
      exact Or.inl ⟨o, ho, rfl, by simp [consumedSell_nil]⟩

/-- Witness for C3: one bid of 2 shares against one ask of 3 shares. -/
theorem quantity_monotone_unlinked_iff_zero_witness :
    (∀ o ∈ ([⟨1, "Buy", "T", 2, 10⟩] : List Order), 0 < o.qty) ∧
      (∀ o ∈ ([⟨2, "Sell", "T", 3, 9⟩] : List Order), 0 < o.qty) ∧
      (([⟨1, "Buy", "T", 2, 10⟩] : List Order).map (·.oid)).Nodup ∧
      (([⟨2, "Sell", "T", 3, 9⟩] : List Order).map (·.oid)).Nodup ∧
      ((∀ o ∈ (matchLoop [⟨1, "Buy", "T", 2, 10⟩] [⟨2, "Sell", "T", 3, 9⟩] 0).1, 0 < o.qty) ∧
        (∀ o ∈ (matchLoop [⟨1, "Buy", "T", 2, 10⟩] [⟨2, "Sell", "T", 3, 9⟩] 0).2.1, 0 < o.qty) ∧
        (∀ ev ∈ (matchLoop [⟨1, "Buy", "T", 2, 10⟩] [⟨2, "Sell", "T", 3, 9⟩] 0).2.2.1,
          0 < ev.matched) ∧
        (∀ o ∈ ([⟨1, "Buy", "T", 2, 10⟩] : List Order),
          (∃ o' ∈ (matchLoop [⟨1, "Buy", "T", 2, 10⟩] [⟨2, "Sell", "T", 3, 9⟩] 0).1,
              o'.oid = o.oid ∧ o'.qty = o.qty - consumedBuy o.oid
                (matchLoop [⟨1, "Buy", "T", 2, 10⟩] [⟨2, "Sell", "T", 3, 9⟩] 0).2.2.1) ∨
            (o.oid ∉ (matchLoop [⟨1, "Buy", "T", 2, 10⟩] [⟨2, "Sell", "T", 3, 9⟩] 0).1.map (·.oid) ∧
              consumedBuy o.oid
                (matchLoop [⟨1, "Buy", "T", 2, 10⟩] [⟨2, "Sell", "T", 3, 9⟩] 0).2.2.1 = o.qty)) ∧
        ∀ o ∈ ([⟨2, "Sell", "T", 3, 9⟩] : List Order),
          (∃ o' ∈ (matchLoop [⟨1, "Buy", "T", 2, 10⟩] [⟨2, "Sell", "T", 3, 9⟩] 0).2.1,
              o'.oid = o.oid ∧ o'.qty = o.qty - consumedSell o.oid
                (matchLoop [⟨1, "Buy", "T", 2, 10⟩] [⟨2, "Sell", "T", 3, 9⟩] 0).2.2.1) ∨
            (o.oid ∉ (matchLoop [⟨1, "Buy", "T", 2, 10⟩] [⟨2, "Sell", "T", 3, 9⟩] 0).2.1.map (·.oid) ∧
              consumedSell o.oid
                (matchLoop [⟨1, "Buy", "T", 2, 10⟩] [⟨2, "Sell", "T", 3, 9⟩] 0).2.2.1 = o.qty)) :=
  ⟨by decide, by decide, by decide, by decide,
    quantity_monotone_unlinked_iff_zero [⟨1, "Buy", "T", 2, 10⟩] [⟨2, "Sell", "T", 3, 9⟩] 0
      (by decide) (by decide) (by decide) (by decide)⟩
